import Mathlib

/-!
# Verification of the race-analysis channel pipeline

A shallow embedding of the column-derivation and lap-detection core of the
`race_analysis` package (`columns.py`, `laps_data.py`, `df_utils.py`).

Modelling conventions:

* A pandas float cell is modelled by `FVal`: a finite rational, NaN, or a
  signed infinity, with IEEE-754 comparison/arithmetic semantics for the
  operations the code uses (`diff`, `fillna`, `replace`, `/`, `<`, `==`,
  `abs`, `isin`).
* A DataFrame is an association list from column name to a list of cells
  (`Df`), together with a parallel units dictionary (`UnitsDict`); the in-place
  mutation `df[name] = data` is modelled by `dfSet`, which replaces the
  column when the name is present and appends it otherwise.
* Physical unit conversion (`pint`) is an external collaborator; at every
  call site modelled here the target unit equals the data's own unit, so
  `.pint.to(...)` is the identity and units are carried as plain strings.
* The geodesic distance (`geopy.great_circle`) and the DBSCAN start-line
  centroid are external collaborators; the lap detector is therefore
  parametrised by the per-row distance (in kilometres) to the start
  centroid, exactly the quantity the source computes per row.
-/

/-- An IEEE-754-style float cell: a finite value (idealised as a rational),
not-a-number, or a signed infinity. -/
inductive FVal where
  | fin : ℚ → FVal
  | nan : FVal
  | pinf : FVal
  | ninf : FVal
deriving DecidableEq, Repr

namespace FVal

/-- IEEE subtraction, as performed elementwise by `Series.diff`. -/
def sub : FVal → FVal → FVal
  | fin a, fin b => fin (a - b)
  | nan, _ => nan
  | _, nan => nan
  | pinf, pinf => nan
  | ninf, ninf => nan
  | pinf, _ => pinf
  | ninf, _ => ninf
  | fin _, pinf => ninf
  | fin _, ninf => pinf

/-- IEEE addition, as performed by `current_lap_time += row['Delta Time']`. -/
def add : FVal → FVal → FVal
  | fin a, fin b => fin (a + b)
  | nan, _ => nan
  | _, nan => nan
  | pinf, ninf => nan
  | ninf, pinf => nan
  | pinf, _ => pinf
  | ninf, _ => ninf
  | fin _, pinf => pinf
  | fin _, ninf => ninf

/-- IEEE division, as performed elementwise by `Series.__truediv__`. -/
def div : FVal → FVal → FVal
  | fin a, fin b =>
      if b = 0 then (if a = 0 then nan else if 0 < a then pinf else ninf)
      else fin (a / b)
  | nan, _ => nan
  | _, nan => nan
  | pinf, pinf => nan
  | pinf, ninf => nan
  | ninf, pinf => nan
  | ninf, ninf => nan
  | pinf, fin b => if 0 ≤ b then pinf else ninf
  | ninf, fin b => if 0 ≤ b then ninf else pinf
  | fin _, pinf => fin 0
  | fin _, ninf => fin 0

/-- IEEE strict order: any comparison involving NaN is false. -/
def lt : FVal → FVal → Bool
  | fin a, fin b => decide (a < b)
  | fin _, pinf => true
  | ninf, fin _ => true
  | ninf, pinf => true
  | _, _ => false

/-- IEEE non-strict order: any comparison involving NaN is false. -/
def le : FVal → FVal → Bool
  | fin a, fin b => decide (a ≤ b)
  | fin _, pinf => true
  | ninf, fin _ => true
  | ninf, pinf => true
  | pinf, pinf => true
  | ninf, ninf => true
  | _, _ => false

/-- IEEE equality test (`==` on pandas cells): `NaN == x` is false. -/
def ieeeEq : FVal → FVal → Bool
  | fin a, fin b => decide (a = b)
  | pinf, pinf => true
  | ninf, ninf => true
  | _, _ => false

/-- IEEE absolute value, as performed elementwise by `abs(series)`. -/
def fabs : FVal → FVal
  | fin a => fin |a|
  | nan => nan
  | pinf => pinf
  | ninf => pinf

/-- The cell is a finite number (neither NaN nor an infinity). -/
def isFin : FVal → Bool
  | fin _ => true
  | _ => false

end FVal

/-- `Series.fillna(0)` on one cell: NaN is replaced by 0. -/
def fillna0 (v : FVal) : FVal :=
  match v with
  | .nan => .fin 0
  | w => w

/-- `Series.replace(0, np.nan)` on one cell: an (exact) 0 becomes NaN. -/
def replace0nan (v : FVal) : FVal :=
  if v = .fin 0 then .nan else v

/-- `series.diff().fillna(0)`, the delta kernel of `set_delta`
(`columns.py`).  `diff` subtracts the 1-shifted series (whose row 0 is the
NaN padding), so row 0 is always NaN and is then filled with 0. -/
def deltaData (c : List FVal) : List FVal :=
  (List.zipWith FVal.sub c (.nan :: c)).map fillna0

/-- `df[col].diff().fillna(0) / df['Delta Time'].replace(0, np.nan)`, the
body of `set_time_derivative` (`columns.py`). -/
def timeDerivData (c dt : List FVal) : List FVal :=
  List.zipWith FVal.div (deltaData c) (dt.map replace0nan)

/-- `np.where(df['GPS LonAcc'] < -0.15 g, 1, 0)`: the "GPS BRK On" flag
column of `set_GPS_BRK_On` (`columns.py`). -/
def brkData (lonAcc : List FVal) : List FVal :=
  lonAcc.map fun v => if FVal.lt v (.fin (-0.15)) then .fin 1 else .fin 0

/-- `np.where(df['GPS LonAcc'] > 0.05 g, 1, 0)`: the "GPS TPS On" flag
column of `set_GPS_TPS_On` (`columns.py`). -/
def tpsData (lonAcc : List FVal) : List FVal :=
  lonAcc.map fun v => if FVal.lt (.fin 0.05) v then .fin 1 else .fin 0

/-- `np.where(abs(df['GPS LatAcc']) > 0.2 g, 1, 0)`: the "GPS CRN On" flag
column of `set_GPS_CRN_On` (`columns.py`). -/
def crnData (latAcc : List FVal) : List FVal :=
  latAcc.map fun v => if FVal.lt (.fin 0.2) v.fabs then .fin 1 else .fin 0

/-- `np.where((BRK == 0) & (TPS == 0) & (CRN == 0), 1, 0)`: the
"GPS CST On" flag column of `set_GPS_CST_On` (`columns.py`). -/
def cstData : List FVal → List FVal → List FVal → List FVal
  | b :: bs, t :: ts, c :: cs =>
      (if FVal.ieeeEq b (.fin 0) && FVal.ieeeEq t (.fin 0) && FVal.ieeeEq c (.fin 0)
       then FVal.fin 1 else FVal.fin 0) :: cstData bs ts cs
  | _, _, _ => []

/-- Association-list lookup, modelling both `df[name]` column access and
`units_dict[name]` access (first binding wins; pandas column names are
unique). -/
def alistGet {β : Type} : List (String × β) → String → Option β
  | [], _ => none
  | (n, v) :: rest, name => if n = name then some v else alistGet rest name

/-- Association-list write, modelling the in-place assignments
`df[name] = data` and `units_dict[name] = u`: an existing binding is
replaced in position, a new one is appended. -/
def alistSet {β : Type} : List (String × β) → String → β → List (String × β)
  | [], name, v => [(name, v)]
  | (n, w) :: rest, name, v =>
      if n = name then (n, v) :: rest else (n, w) :: alistSet rest name v

/-- A DataFrame: an ordered association of column names to cell lists. -/
abbrev Df : Type := List (String × List FVal)

/-- The `units` dictionary threaded alongside the DataFrame. -/
abbrev UnitsDict : Type := List (String × String)

/-- `df[name]`: look a column up. -/
def getCol (df : Df) (name : String) : Option (List FVal) :=
  alistGet df name

/-- `name in df.columns`. -/
def hasCol (df : Df) (name : String) : Bool :=
  (getCol df name).isSome

/-- `df[name] = data` on the column-oriented model. -/
def dfSet (df : Df) (name : String) (data : List FVal) : Df :=
  alistSet df name data

/-- `set_df_column` (`columns.py`): writes the column and records its unit,
with no existence guard.  `data.pint.to(data_units)` is the identity at
every call site modelled here (the target unit always equals the data's
unit), so the cells are stored as-is; `dataUnits` stands for
`data.pint.units` and is used when `column_units` is `None`. -/
def setDfColumn (df : Df) (us : UnitsDict) (name : String) (data : List FVal)
    (dataUnits : String) (columnUnits : Option String) : Df × UnitsDict :=
  let du := columnUnits.getD dataUnits
  (dfSet df name data, alistSet us name du)

/-- `set_delta` (`columns.py`): looks up the source column's unit and data
(`KeyError`, modelled as `none`, when absent) and writes the
`diff().fillna(0)` column through `set_df_column`. -/
def setDelta (df : Df) (us : UnitsDict) (colToDelta deltaName : String) :
    Option (Df × UnitsDict) :=
  match alistGet us colToDelta, getCol df colToDelta with
  | some du, some c => some (setDfColumn df us deltaName (deltaData c) du (some du))
  | _, _ => none

/-- `set_delta_time` (`columns.py`): `set_delta(df, units, 'Time', 'Delta Time')`. -/
def setDeltaTime (df : Df) (us : UnitsDict) : Option (Df × UnitsDict) :=
  setDelta df us "Time" "Delta Time"

/-- `set_time_derivative` (`columns.py`): divides the filled diff of the
column by the zero-masked "Delta Time" column and stores it via
`set_df_column` with `column_units = None`.  `derivedUnits` stands for the
pint-computed unit symbol of the quotient series (unit algebra is an
external collaborator). -/
def setTimeDerivative (df : Df) (us : UnitsDict) (colToDerive derivativeName derivedUnits : String) :
    Option (Df × UnitsDict) :=
  match getCol df colToDerive, getCol df "Delta Time" with
  | some c, some dt =>
      some (setDfColumn df us derivativeName (timeDerivData c dt) derivedUnits none)
  | _, _ => none

/-- `set_acceleration` (`columns.py`): the "Acceleration" channel,
`set_time_derivative` applied to "GPS Speed". -/
def setAcceleration (df : Df) (us : UnitsDict) (derivedUnits : String) : Option (Df × UnitsDict) :=
  setTimeDerivative df us "GPS Speed" "Acceleration" derivedUnits

/-- One row of the lap-counting state machine of `find_laps`
(`laps_data.py`): `is_new_lap` is evaluated with the elapsed time
accumulated through the previous row, the row's Delta Time is added
afterwards, and a detected lap resets the accumulator to 0; the returned
pair is what the row emits into "Lap Number" and "Current Lap Time".
`d` is the great-circle distance (km) from the row's GPS fix to the
start/finish centroid, an external geodesy computation. -/
def lapStep (idx lap : ℕ) (elapsed : FVal) (d : ℚ) (t : FVal) : ℕ × FVal :=
  if d ≤ 0.05 ∧ 0 < idx ∧ (FVal.le (.fin 10) elapsed = true ∨ lap = 1) then
    (lap + 1, .fin 0)
  else
    (lap, elapsed.add t)

/-- The row loop of `find_laps` (`laps_data.py`) over (distance, Delta
Time) rows, threading `(index, current_lap, current_lap_time)`. -/
def lapRun (idx lap : ℕ) (elapsed : FVal) : List (ℚ × FVal) → List (ℕ × FVal)
  | [] => []
  | r :: rows =>
      let s := lapStep idx lap elapsed r.1 r.2
      s :: lapRun (idx + 1) s.1 s.2 rows

/-- The `lap_numbers` list accumulated by the loop of `find_laps`: the
"Lap Number" value emitted at each row. -/
def lapNumbers (dists : List ℚ) (dts : List FVal) : List ℕ :=
  (lapRun 0 1 (.fin 0) (dists.zip dts)).map Prod.fst

/-- The `lap_times` list accumulated by the loop of `find_laps`: the
"Current Lap Time" value emitted at each row. -/
def lapTimes (dists : List ℚ) (dts : List FVal) : List FVal :=
  (lapRun 0 1 (.fin 0) (dists.zip dts)).map Prod.snd

/-- `find_laps` (`laps_data.py`): guards against an existing "Lap Number"
column, then runs the lap-counting state machine and writes the "Lap
Number" and "Current Lap Time" columns.  `dists` is the per-row
great-circle distance (km) to the DBSCAN start/finish centroid; both the
clustering and the geodesic metric are external collaborators
(`identify_starting_point`, `geopy.great_circle`); the model assumes the
default RangeIndex, on which the `iterrows` label equals the row
position. -/
def findLaps (dists : List ℚ) (df : Df) : Except String Df :=
  if hasCol df "Lap Number" then
    .error "This DataFrame already contains a \"Lap Number\" column."
  else
    match getCol df "Delta Time" with
    | none => .error "KeyError: Delta Time"
    | some dts =>
        .ok (dfSet (dfSet df "Lap Number"
              ((lapNumbers dists dts).map fun k => FVal.fin (k : ℚ)))
              "Current Lap Time" (lapTimes dists dts))

/-- `Series.isin([0, 1])` on one cell (NaN is in no list). -/
def isin01 (v : FVal) : Bool :=
  FVal.ieeeEq v (.fin 0) || FVal.ieeeEq v (.fin 1)

/-- numpy truthiness of a cell, as used by `DataFrame.all/any(axis=1)`:
every value other than (exact) 0 counts as true. -/
def truthy (v : FVal) : Bool :=
  !(FVal.ieeeEq v (.fin 0))

/-- The state-column validation loop of `columns_during_state`
(`df_utils.py`): raises on the first state column holding a value outside
{0, 1}.  The `none` branch is unreachable after the subset check and is
modelled as the `KeyError` the bare `df[state_column]` access would
raise. -/
def checkStateCols (df : Df) : List String → Except String Unit
  | [] => .ok ()
  | s :: rest =>
      match getCol df s with
      | some vals =>
          if vals.all isin01 then checkStateCols df rest
          else .error ("State column \"" ++ s ++ "\" must only contain 0 and 1 values.")
      | none => .error ("KeyError: " ++ s)

/-- Row predicate `is_on` of `columns_during_state`: all (or any) state
columns are truthy at row `i`. -/
def rowIsOn (df : Df) (stateCols : List String) (allOn : Bool) (i : ℕ) : Bool :=
  let vals := stateCols.map fun s => ((getCol df s).getD []).getD i FVal.nan
  if allOn then vals.all truthy else vals.any truthy

/-- `columns_during_state` (`df_utils.py`), the `mask_rows` operation:
checks that the data and state columns exist, validates that every state
column only holds {0, 1}, and then keeps each data cell whose row is on,
filling the others with 0 (`fill_with_zeros`) or NaN (`Series.where`).
The cosmetic `append_to_column_name` renaming and the single-column
Series unwrapping do not change any cell and are not modelled. -/
def columnsDuringState (df : Df) (dataCols stateCols : List String)
    (fillWithZeros allStatesMustBeOn : Bool) : Except String Df :=
  if !(dataCols.all fun c => hasCol df c) then
    .error "The following data columns are not present in the DataFrame."
  else if !(stateCols.all fun c => hasCol df c) then
    .error "The following state columns are not present in the DataFrame."
  else
    match checkStateCols df stateCols with
    | .error e => .error e
    | .ok _ =>
        .ok (dataCols.map fun c =>
          (c, List.mapIdx
                (fun i v =>
                  if rowIsOn df stateCols allStatesMustBeOn i then v
                  else if fillWithZeros then FVal.fin 0 else FVal.nan)
                ((getCol df c).getD [])))

/-- Normalise a Python slice endpoint against length `n`: negative indices
count from the end, then the result is clamped into `[0, n]`. -/
def pyIdx (n i : Int) : ℕ :=
  (min (max (if i < 0 then i + n else i) 0) n).toNat

/-- `xs[start:stop]` with Python's int-slice semantics. -/
def pySlice {α : Type} (xs : List α) (start stop : Int) : List α :=
  (xs.take (pyIdx xs.length stop)).drop (pyIdx xs.length start)

/-- `len(df)`: the row count, read off the first column. -/
def rowCount (df : Df) : ℕ :=
  match df with
  | [] => 0
  | (_, v) :: _ => v.length

/-- `slice_into_df` (`df_utils.py`): `start_index` defaults to 0;
`end_index` defaults to `len(df) - 2` and is clamped down to it whenever
the supplied value exceeds it; rows `start_index .. end_index` are then
returned inclusively via `df.iloc[start_index : end_index + 1]`. -/
def sliceIntoDf (df : Df) (startIndex endIndex : Option Int) : Df :=
  let n : Int := rowCount df
  let s : Int := startIndex.getD 0
  let e : Int := match endIndex with
    | none => n - 2
    | some e0 => if e0 > n - 2 then n - 2 else e0
  df.map fun col => (col.1, pySlice col.2 s (e + 1))

/-- The concrete table for the C1 counterexample: it already contains the
"Delta Time" column that `set_delta_time` is about to produce. -/
def c1df : Df := [("Time", [.fin 3, .fin 8]), ("Delta Time", [.fin 99, .fin 99])]

/-- The units dictionary accompanying `c1df`. -/
def c1us : UnitsDict := [("Time", "second"), ("Delta Time", "second")]

/-- The ten-row table of the documented scenario: Delta Time is one second
per row. -/
def c4df : Df :=
  [("Delta Time", [FVal.fin 1, .fin 1, .fin 1, .fin 1, .fin 1,
                   .fin 1, .fin 1, .fin 1, .fin 1, .fin 1])]

/-- Distances (km) to the start centroid for the documented scenario: nine
points near — but more than 50 m from — the start/finish line, and a final
point at the line. -/
def c4dists : List ℚ :=
  [0.06, 0.06, 0.06, 0.06, 0.06, 0.06, 0.06, 0.06, 0.06, 0]

example : deltaData [.fin 10, .fin 20, .fin 30] = [.fin 0, .fin 10, .fin 10] := by
  norm_num [deltaData, FVal.sub, fillna0]

example : deltaData [.nan, .fin 1] = [.fin 0, .fin 0] := by decide

example : timeDerivData [.fin 1, .fin 3] [.fin 1, .fin 0] = [.fin 0, .nan] := by
  norm_num [timeDerivData, deltaData, FVal.sub, FVal.div, fillna0, replace0nan]

/-! ## Association-list lemmas -/

theorem alistGet_set_self {β : Type} (l : List (String × β)) (n : String) (v : β) :
    alistGet (alistSet l n v) n = some v := by
  induction l with
  | nil => simp [alistSet, alistGet]
  | cons hd tl ih =>
      obtain ⟨m, w⟩ := hd
      by_cases h : m = n
      · simp [alistSet, alistGet, h]
      · simp [alistSet, alistGet, h, ih]

theorem alistGet_set_ne {β : Type} (l : List (String × β)) (n n' : String) (v : β)
    (h : n' ≠ n) : alistGet (alistSet l n v) n' = alistGet l n' := by
  induction l with
  | nil =>
      simp only [alistSet, alistGet]
      rw [if_neg fun hh => h hh.symm]
  | cons hd tl ih =>
      obtain ⟨m, w⟩ := hd
      simp only [alistSet]
      by_cases hm : m = n
      · rw [if_pos hm]
        have hmn' : ¬m = n' := fun hh => h (hh ▸ hm)
        simp only [alistGet]
        rw [if_neg hmn', if_neg hmn']
      · rw [if_neg hm]
        simp only [alistGet]
        by_cases hm' : m = n'
        · rw [if_pos hm', if_pos hm']
        · rw [if_neg hm', if_neg hm', ih]

theorem getCol_dfSet_self (df : Df) (n : String) (v : List FVal) :
    getCol (dfSet df n v) n = some v :=
  alistGet_set_self df n v

theorem getCol_dfSet_ne (df : Df) (n n' : String) (v : List FVal) (h : n' ≠ n) :
    getCol (dfSet df n v) n' = getCol df n' :=
  alistGet_set_ne df n n' v h

theorem hasCol_dfSet (df : Df) (n n' : String) (v : List FVal)
    (h : hasCol df n' = true) : hasCol (dfSet df n v) n' = true := by
  by_cases hn : n' = n
  · subst hn
    simp [hasCol, getCol_dfSet_self]
  · simpa [hasCol, getCol_dfSet_ne df n n' v hn] using h

/-! ## C1: derivation steps do not guard their output column -/

/-- C1 counterexample: invoking the "Delta Time" derivation step on a table
that already contains a "Delta Time" column does not fail — it succeeds and
silently replaces the existing column ([99, 99] becomes [0, 5]), refuting
the claim that every derivation step fails in this situation. -/
theorem c1_counterexample :
    setDeltaTime c1df c1us =
      some ([("Time", [.fin 3, .fin 8]), ("Delta Time", [.fin 0, .fin 5])],
            [("Time", "second"), ("Delta Time", "second")]) ∧
    getCol c1df "Delta Time" = some [.fin 99, .fin 99] ∧
    FVal.fin 99 ≠ FVal.fin 0 := by
  refine ⟨?_, by decide, by decide⟩
  norm_num [setDeltaTime, setDelta, setDfColumn, c1df, c1us, alistGet, alistSet,
    getCol, dfSet, deltaData, FVal.sub, fillna0]
  all_goals decide

/-- C1 (amended): the column-writing primitive `set_df_column`, through
which every derivation step of the pipeline stores its output, never
fails: when the output column already exists it silently overwrites that
column's cells, it leaves every other column unchanged, and it never
removes a column that is already present (only the lap detector guards
against recomputing its output column). -/
theorem c1_set_df_column_overwrites (df : Df) (us : UnitsDict) (name : String)
    (data : List FVal) (du : String) (cu : Option String) :
    getCol (setDfColumn df us name data du cu).1 name = some data ∧
    (∀ n, n ≠ name → getCol (setDfColumn df us name data du cu).1 n = getCol df n) ∧
    (∀ n, hasCol df n = true → hasCol (setDfColumn df us name data du cu).1 n = true) := by
  refine ⟨getCol_dfSet_self df name data, ?_, ?_⟩
  · intro n hn
    exact getCol_dfSet_ne df name n data hn
  · intro n hn
    exact hasCol_dfSet df name n data hn

/-- Witness for `c1_set_df_column_overwrites` at a concrete table that
already holds the column being written. -/
theorem c1_set_df_column_overwrites_witness :
    getCol (setDfColumn c1df c1us "Delta Time" [.fin 0, .fin 5] "second" none).1
        "Delta Time" = some [.fin 0, .fin 5] ∧
    getCol (setDfColumn c1df c1us "Delta Time" [.fin 0, .fin 5] "second" none).1
        "Time" = getCol c1df "Time" ∧
    hasCol (setDfColumn c1df c1us "Delta Time" [.fin 0, .fin 5] "second" none).1
        "Time" = true := by
  obtain ⟨h1, h2, h3⟩ :=
    c1_set_df_column_overwrites c1df c1us "Delta Time" [.fin 0, .fin 5] "second" none
  exact ⟨h1, h2 "Time" (by decide), h3 "Time" (by decide)⟩

/-! ## C7: the lap detector guards its output column -/

/-- C7: on any table that already contains a "Lap Number" column,
`find_laps` fails with the duplicate-column error, whatever the distance
input; since the guard is the first statement of the function, no column
is computed or written and the (pure) result carries no modified table. -/
theorem c7_find_laps_guard (dists : List ℚ) (df : Df)
    (h : hasCol df "Lap Number" = true) :
    findLaps dists df =
      .error "This DataFrame already contains a \"Lap Number\" column." := by
  simp [findLaps, h]

/-- Witness for `c7_find_laps_guard` on a one-column table. -/
theorem c7_find_laps_guard_witness :
    findLaps [0] [("Lap Number", [.fin 1])] =
      .error "This DataFrame already contains a \"Lap Number\" column." :=
  c7_find_laps_guard [0] [("Lap Number", [.fin 1])] (by decide)

/-! ## C9: state-column validation in `columns_during_state` -/

theorem checkStateCols_error (df : Df) (cols : List String) (s : String)
    (vals : List FVal) (v : FVal) (hs : s ∈ cols) (hcol : getCol df s = some vals)
    (hv : v ∈ vals) (hbad : isin01 v = false) :
    ∃ e, checkStateCols df cols = .error e := by
  induction cols with
  | nil => cases hs
  | cons c rest ih =>
      by_cases hc : s = c
      · subst hc
        have hall : vals.all isin01 = false := by
          rw [List.all_eq_false]
          exact ⟨v, hv, by simp [hbad]⟩
        have hrun : checkStateCols df (s :: rest) =
            .error ("State column \"" ++ s ++ "\" must only contain 0 and 1 values.") := by
          simp [checkStateCols, hcol, hall]
        exact ⟨_, hrun⟩
      · have hs' : s ∈ rest := by
          cases hs with
          | head => exact absurd rfl hc
          | tail _ h2 => exact h2
        cases hget : getCol df c with
        | none => exact ⟨"KeyError: " ++ c, by simp [checkStateCols, hget]⟩
        | some w =>
            cases hall : w.all isin01 with
            | false =>
                have hrun : checkStateCols df (c :: rest) =
                    .error ("State column \"" ++ c ++ "\" must only contain 0 and 1 values.") := by
                  simp [checkStateCols, hget, hall]
                exact ⟨_, hrun⟩
            | true =>
                have hstep : checkStateCols df (c :: rest) = checkStateCols df rest := by
                  simp [checkStateCols, hget, hall]
                rw [hstep]
                exact ih hs'


/-- C9: passing a condition (state) column holding any value outside
{0, 1} — for example 2 — to `columns_during_state` (`mask_rows`) makes the
operation fail with an error; being an `Except.error`, it carries no
masked output. -/
theorem c9_mask_rows_invalid_state (df : Df) (dataCols stateCols : List String)
    (fz ao : Bool) (s : String) (vals : List FVal) (v : FVal)
    (hs : s ∈ stateCols) (hcol : getCol df s = some vals) (hv : v ∈ vals)
    (hbad : isin01 v = false) :
    ∃ e, columnsDuringState df dataCols stateCols fz ao = .error e := by
  cases hd : dataCols.all (fun c => hasCol df c) with
  | false =>
      exact ⟨"The following data columns are not present in the DataFrame.",
        by simp [columnsDuringState, hd]⟩
  | true =>
      cases hst : stateCols.all (fun c => hasCol df c) with
      | false =>
          exact ⟨"The following state columns are not present in the DataFrame.",
            by simp [columnsDuringState, hd, hst]⟩
      | true =>
          obtain ⟨e, he⟩ := checkStateCols_error df stateCols s vals v hs hcol hv hbad
          exact ⟨e, by simp [columnsDuringState, hd, hst, he]⟩

/-- Witness for `c9_mask_rows_invalid_state`: a state column containing
the value 2. -/
theorem c9_mask_rows_invalid_state_witness :
    ∃ e, columnsDuringState [("data", [.fin 5, .fin 6]), ("state", [.fin 1, .fin 2])]
      ["data"] ["state"] false true = .error e :=
  c9_mask_rows_invalid_state
    [("data", [.fin 5, .fin 6]), ("state", [.fin 1, .fin 2])]
    ["data"] ["state"] false true "state" [.fin 1, .fin 2] (.fin 2)
    (by decide) (by decide) (by decide) (by decide)

/-! ## C8: the delta operator -/

theorem deltaData_length (c : List FVal) : (deltaData c).length = c.length := by
  simp [deltaData]

theorem deltaData_getElem?_zero (col : List FVal) (x : FVal) (hx : col[0]? = some x) :
    (deltaData col)[0]? = some (.fin 0) := by
  cases col with
  | nil => simp at hx
  | cons a as => cases a <;> simp [deltaData, FVal.sub, fillna0]

theorem deltaData_getElem?_succ (col : List FVal) (i : ℕ) (a b : FVal)
    (ha : col[i + 1]? = some a) (hb : col[i]? = some b) :
    (deltaData col)[i + 1]? = some (fillna0 (a.sub b)) := by
  have h1 : (List.zipWith FVal.sub col (.nan :: col))[i + 1]? = some (a.sub b) := by
    rw [List.getElem?_zipWith_eq_some]
    exact ⟨a, b, ha, by simpa using hb, rfl⟩
  simp [deltaData, h1]

/-- C8 counterexample: on the column C = [NaN, 1] the delta column is
[0, 0] at row 1, even though C[1] − C[0] is NaN — `fillna(0)` replaces
every NaN difference, not only the one at row 0, so the claim's
unconditional "value at every row i > 0 is C[i] - C[i-1]" is false. -/
theorem c8_counterexample :
    (deltaData [FVal.nan, FVal.fin 1])[1]? = some (.fin 0) ∧
    FVal.sub (.fin 1) .nan = .nan ∧
    FVal.fin 0 ≠ FVal.nan := by
  exact ⟨by decide, by decide, by decide⟩

/-- C8 (amended): the delta column (`set_delta`, used for "Delta Time" and
"Delta KE") preserves length; its row 0 is 0 regardless of the column's
contents; at every row i > 0 its value is `fillna(0)` of the IEEE
difference C[i] − C[i−1] — in particular it equals C[i] − C[i−1] whenever
both entries are finite numbers, while a NaN difference (a NaN operand, or
∞ − ∞) is stored as 0. -/
theorem c8_delta_rule (col : List FVal) :
    (deltaData col).length = col.length ∧
    (∀ x, col[0]? = some x → (deltaData col)[0]? = some (.fin 0)) ∧
    (∀ i a b, col[i + 1]? = some a → col[i]? = some b →
        (deltaData col)[i + 1]? = some (fillna0 (a.sub b))) ∧
    (∀ i qa qb, col[i + 1]? = some (.fin qa) → col[i]? = some (.fin qb) →
        (deltaData col)[i + 1]? = some (.fin (qa - qb))) := by
  refine ⟨deltaData_length col, deltaData_getElem?_zero col,
    deltaData_getElem?_succ col, ?_⟩
  intro i qa qb ha hb
  simpa [FVal.sub, fillna0] using deltaData_getElem?_succ col i (.fin qa) (.fin qb) ha hb

/-- Witness for `c8_delta_rule` on the column [3, 8]. -/
theorem c8_delta_rule_witness :
    (deltaData [FVal.fin 3, FVal.fin 8]).length = 2 ∧
    (deltaData [FVal.fin 3, FVal.fin 8])[0]? = some (.fin 0) ∧
    (deltaData [FVal.fin 3, FVal.fin 8])[1]? = some (.fin (8 - 3)) := by
  obtain ⟨h1, h2, _, h4⟩ := c8_delta_rule [FVal.fin 3, FVal.fin 8]
  exact ⟨h1, h2 (.fin 3) rfl, h4 0 8 3 rfl rfl⟩

/-! ## C5: zero-division policy of the time derivative -/

theorem timeDerivData_length (c dt : List FVal) (hlen : c.length = dt.length) :
    (timeDerivData c dt).length = dt.length := by
  simp [timeDerivData, deltaData, hlen]

theorem deltaData_isFin (c : List FVal) (hf : ∀ v ∈ c, v.isFin = true) (i : ℕ)
    (x : FVal) (hx : (deltaData c)[i]? = some x) : x.isFin = true := by
  unfold deltaData at hx
  rw [List.getElem?_map] at hx
  cases hz : (List.zipWith FVal.sub c (.nan :: c))[i]? with
  | none => rw [hz] at hx; simp at hx
  | some y =>
      rw [hz] at hx
      have hx' : fillna0 y = x := by simpa using hx
      obtain ⟨p, q, hp, hq, hpq⟩ := List.getElem?_zipWith_eq_some.mp hz
      have hpfin : p.isFin = true := hf p (List.getElem?_mem hp)
      have hq' : q = .nan ∨ q.isFin = true := by
        cases List.mem_cons.mp (List.getElem?_mem hq) with
        | inl h => exact Or.inl h
        | inr h => exact Or.inr (hf q h)
      subst hpq
      cases hx'
      cases p with
      | fin p' =>
          cases q with
          | fin q' => simp [FVal.sub, fillna0, FVal.isFin]
          | nan => simp [FVal.sub, fillna0, FVal.isFin]
          | pinf => cases hq' with
              | inl h => cases h
              | inr h => cases h
          | ninf => cases hq' with
              | inl h => cases h
              | inr h => cases h
      | nan => cases hpfin
      | pinf => cases hpfin
      | ninf => cases hpfin

/-- C5: with a finite "Delta Time" column and finite speed inputs, the
derived acceleration (`set_time_derivative`) is NaN at exactly the rows
where Delta Time is 0, and a finite number (in particular, not a
substituted 0 and not an error — the model is a total function) at every
other row. -/
theorem c5_zero_division_nan (c dt : List FVal)
    (hfc : ∀ v ∈ c, v.isFin = true) (hfdt : ∀ v ∈ dt, v.isFin = true)
    (hlen : c.length = dt.length) (i : ℕ) (di : FVal) (hdi : dt[i]? = some di) :
    ∃ ai, (timeDerivData c dt)[i]? = some ai ∧
      (ai = .nan ↔ di = .fin 0) ∧
      (di ≠ .fin 0 → ai.isFin = true) := by
  have hi : i < dt.length := by
    rcases List.getElem?_eq_some_iff.mp hdi with ⟨h, _⟩
    exact h
  have hni : i < (deltaData c).length := by
    rw [deltaData_length, hlen]; exact hi
  obtain ⟨ni, hnig⟩ : ∃ ni, (deltaData c)[i]? = some ni := by
    rcases List.getElem?_eq_some_iff.mpr ⟨hni, rfl⟩ with h
    exact ⟨_, h⟩
  have hnif : ni.isFin = true := deltaData_isFin c hfc i ni hnig
  have hdtm : (dt.map replace0nan)[i]? = some (replace0nan di) := by
    rw [List.getElem?_map, hdi]
    rfl
  have hai : (timeDerivData c dt)[i]? = some (ni.div (replace0nan di)) := by
    unfold timeDerivData
    rw [List.getElem?_zipWith_eq_some]
    exact ⟨ni, replace0nan di, hnig, hdtm, rfl⟩
  refine ⟨ni.div (replace0nan di), hai, ?_, ?_⟩
  · constructor
    · intro hnan
      by_contra hne
      have hdif : di.isFin = true := hfdt di (List.getElem?_mem hdi)
      cases di with
      | fin q =>
          have hq : ¬q = 0 := fun h => hne (by rw [h])
          cases ni with
          | fin p =>
              have : replace0nan (.fin q) = .fin q := by
                simp [replace0nan, hq]
              rw [this] at hnan
              simp [FVal.div, hq] at hnan
          | nan => cases hnif
          | pinf => cases hnif
          | ninf => cases hnif
      | nan => cases hdif
      | pinf => cases hdif
      | ninf => cases hdif
    · intro h0
      subst h0
      have : replace0nan (.fin 0) = .nan := by simp [replace0nan]
      rw [this]
      cases ni with
      | fin p => simp [FVal.div]
      | nan => cases hnif
      | pinf => cases hnif
      | ninf => cases hnif
  · intro hne
    have hdif : di.isFin = true := hfdt di (List.getElem?_mem hdi)
    cases di with
    | fin q =>
        have hq : ¬q = 0 := fun h => hne (by rw [h])
        have : replace0nan (.fin q) = .fin q := by simp [replace0nan, hq]
        rw [this]
        cases ni with
        | fin p => simp [FVal.div, FVal.isFin, hq]
        | nan => cases hnif
        | pinf => cases hnif
        | ninf => cases hnif
    | nan => cases hdif
    | pinf => cases hdif
    | ninf => cases hdif

/-- Witness for `c5_zero_division_nan`: speed [1, 3, 4] against
Delta Time [1, 0, 2], probed at the zero row. -/
theorem c5_zero_division_nan_witness :
    ∃ ai, (timeDerivData [FVal.fin 1, FVal.fin 3, FVal.fin 4]
        [FVal.fin 1, FVal.fin 0, FVal.fin 2])[1]? = some ai ∧
      (ai = .nan ↔ FVal.fin 0 = .fin 0) ∧
      (FVal.fin 0 ≠ .fin 0 → ai.isFin = true) :=
  c5_zero_division_nan [FVal.fin 1, FVal.fin 3, FVal.fin 4]
    [FVal.fin 1, FVal.fin 0, FVal.fin 2]
    (by decide) (by decide) (by decide) 1 (.fin 0) (by decide)

/-! ## C6: coasting exclusivity -/

theorem mapFlag_val (p : FVal → Bool) (l : List FVal) (i : ℕ) (x : FVal)
    (hx : (l.map fun v => if p v then FVal.fin 1 else FVal.fin 0)[i]? = some x) :
    x = .fin 0 ∨ x = .fin 1 := by
  rw [List.getElem?_map] at hx
  cases hv : l[i]? with
  | none => rw [hv] at hx; cases hx
  | some v =>
      rw [hv] at hx
      have hval : (if p v then FVal.fin 1 else FVal.fin 0) = x := by simpa using hx
      cases hp : p v with
      | true => rw [hp] at hval; simp at hval; exact Or.inr hval.symm
      | false => rw [hp] at hval; simp at hval; exact Or.inl hval.symm

theorem cstData_getElem? (bs ts cs : List FVal) (i : ℕ) (s : FVal)
    (h : (cstData bs ts cs)[i]? = some s) :
    ∃ x y z, bs[i]? = some x ∧ ts[i]? = some y ∧ cs[i]? = some z ∧
      s = (if FVal.ieeeEq x (.fin 0) && FVal.ieeeEq y (.fin 0) && FVal.ieeeEq z (.fin 0)
           then FVal.fin 1 else FVal.fin 0) := by
  induction bs generalizing ts cs i with
  | nil => simp [cstData] at h
  | cons b bs ih =>
      cases ts with
      | nil => simp [cstData] at h
      | cons t ts =>
          cases cs with
          | nil => simp [cstData] at h
          | cons cv cs =>
              cases i with
              | zero =>
                  rw [cstData] at h
                  simp only [List.getElem?_cons_zero] at h
                  exact ⟨b, t, cv, by simp, by simp, by simp, (Option.some.inj h).symm⟩
              | succ j =>
                  rw [cstData] at h
                  simp only [List.getElem?_cons_succ] at h
                  obtain ⟨x, y, z, hx, hy, hz, hs⟩ := ih ts cs j h
                  exact ⟨x, y, z, by simpa using hx, by simpa using hy,
                    by simpa using hz, hs⟩

/-- C6: on rows where the Braking, Throttle and Cornering flags have been
derived (from the longitudinal and lateral acceleration columns), the
derived Coasting flag is 1 exactly when all three flags are 0, and no row
has Coasting = 1 together with any of the other three flags = 1. -/
theorem c6_coasting_exclusive (lon lat : List FVal) (i : ℕ) (bi ti ci si : FVal)
    (hb : (brkData lon)[i]? = some bi) (ht : (tpsData lon)[i]? = some ti)
    (hc : (crnData lat)[i]? = some ci)
    (hs : (cstData (brkData lon) (tpsData lon) (crnData lat))[i]? = some si) :
    ((si = .fin 1) ↔ (bi = .fin 0 ∧ ti = .fin 0 ∧ ci = .fin 0)) ∧
    ¬(si = .fin 1 ∧ (bi = .fin 1 ∨ ti = .fin 1 ∨ ci = .fin 1)) := by
  obtain ⟨x, y, z, hx, hy, hz, hsval⟩ := cstData_getElem? _ _ _ i si hs
  rw [hb] at hx
  rw [ht] at hy
  rw [hc] at hz
  cases Option.some.inj hx
  cases Option.some.inj hy
  cases Option.some.inj hz
  have hb01 : bi = .fin 0 ∨ bi = .fin 1 := mapFlag_val _ lon i bi (by simpa [brkData] using hb)
  have ht01 : ti = .fin 0 ∨ ti = .fin 1 := mapFlag_val _ lon i ti (by simpa [tpsData] using ht)
  have hc01 : ci = .fin 0 ∨ ci = .fin 1 := mapFlag_val _ lat i ci (by simpa [crnData] using hc)
  subst hsval
  rcases hb01 with rfl | rfl <;> rcases ht01 with rfl | rfl <;> rcases hc01 with rfl | rfl <;>
    norm_num [FVal.ieeeEq]

/-- Witness for `c6_coasting_exclusive` at a row with the throttle flag on
(an infinite longitudinal acceleration exceeds 0.05 g, a NaN lateral
acceleration corners no-one). -/
theorem c6_coasting_exclusive_witness :
    ((FVal.fin 0 = FVal.fin 1) ↔
        (FVal.fin 0 = FVal.fin 0 ∧ FVal.fin 1 = FVal.fin 0 ∧ FVal.fin 0 = FVal.fin 0)) ∧
    ¬(FVal.fin 0 = FVal.fin 1 ∧
        (FVal.fin 0 = FVal.fin 1 ∨ FVal.fin 1 = FVal.fin 1 ∨ FVal.fin 0 = FVal.fin 1)) :=
  c6_coasting_exclusive [.pinf] [.nan] 0 (.fin 0) (.fin 1) (.fin 0) (.fin 0)
    (by decide) (by decide) (by decide) (by decide)

/-! ## C10: row slicing -/

theorem alistGet_mem {β : Type} (l : List (String × β)) (name : String) (v : β)
    (h : alistGet l name = some v) : (name, v) ∈ l := by
  induction l with
  | nil => cases h
  | cons hd tl ih =>
      obtain ⟨m, w⟩ := hd
      by_cases hm : m = name
      · subst hm
        rw [alistGet, if_pos rfl] at h
        exact (Option.some.inj h) ▸ List.mem_cons_self _ _
      · rw [alistGet, if_neg hm] at h
        exact List.mem_cons_of_mem _ (ih h)

theorem getCol_map_cols (df : Df) (f : List FVal → List FVal) (name : String) :
    getCol (df.map fun colp => (colp.1, f colp.2)) name = (getCol df name).map f := by
  induction df with
  | nil => simp [getCol, alistGet]
  | cons hd tl ih =>
      obtain ⟨m, w⟩ := hd
      by_cases hm : m = name
      · simp [getCol, alistGet, hm]
      · simpa [getCol, alistGet, hm] using ih

theorem pyIdx_le_of_le_sub_one (n : ℕ) (i : Int) (hi : i ≤ (n : Int) - 1) :
    pyIdx n i ≤ n - 1 := by
  unfold pyIdx
  split <;> omega

theorem pyIdx_of_nonneg_le (n : ℕ) (i : Int) (h0 : 0 ≤ i) (hn : i ≤ (n : Int)) :
    pyIdx n i = i.toNat := by
  unfold pyIdx
  split <;> omega

theorem pySlice_sublist_take (vals : List FVal) (n : ℕ) (hvl : vals.length = n)
    (s stop : Int) (hstop : stop ≤ (n : Int) - 1) :
    (pySlice vals s stop).Sublist (vals.take (n - 1)) := by
  unfold pySlice
  have ht : pyIdx vals.length stop ≤ n - 1 := by
    rw [hvl]
    exact pyIdx_le_of_le_sub_one n stop hstop
  have h1 := List.drop_sublist (pyIdx vals.length s) (vals.take (pyIdx vals.length stop))
  have h3 := List.take_sublist (pyIdx vals.length stop) (vals.take (n - 1))
  rw [List.take_take, min_eq_left ht] at h3
  exact h1.trans h3

theorem getCol_map_pySlice (df : Df) (a b : Int) (name : String) :
    getCol (df.map fun col => (col.1, pySlice col.2 a b)) name =
      (getCol df name).map fun v => pySlice v a b :=
  getCol_map_cols df (fun v => pySlice v a b) name

theorem sliceIntoDf_some (df : Df) (s : Option Int) (e0 : Int) :
    sliceIntoDf df s (some e0) =
      df.map fun col => (col.1, pySlice col.2 (s.getD 0)
        ((if e0 > (rowCount df : Int) - 2 then (rowCount df : Int) - 2 else e0) + 1)) := rfl

theorem sliceIntoDf_none (df : Df) (s : Option Int) :
    sliceIntoDf df s none =
      df.map fun col => (col.1, pySlice col.2 (s.getD 0)
        (((rowCount df : Int) - 2) + 1)) := rfl

/-- C10: for a table with at least 2 rows, `slice_into_df` (1) silently
clamps any supplied end index exceeding `row_count - 2` — including an
explicit `row_count - 1` — down to `row_count - 2`, the same cut used for
an unspecified end; (2) returns, for in-range natural indices, exactly the
rows `start .. min end (row_count - 2)` inclusive of both ends; and
(3) never returns the table's final row, whatever start and end indices
are supplied. -/
theorem c10_slice_excludes_final_row (df : Df) (n : ℕ) (hn : 2 ≤ n)
    (hrc : rowCount df = n) (hlen : ∀ p ∈ df, p.2.length = n) :
    (∀ (s : Option Int) (e : Int), (n : Int) - 2 < e →
        sliceIntoDf df s (some e) = sliceIntoDf df s none) ∧
    (∀ (s e : ℕ) (name : String) (vals : List FVal), getCol df name = some vals →
        getCol (sliceIntoDf df (some (s : Int)) (some (e : Int))) name =
          some ((vals.drop s).take (min e (n - 2) + 1 - s))) ∧
    (∀ (s e : Option Int) (name : String) (vals vals' : List FVal),
        getCol df name = some vals →
        getCol (sliceIntoDf df s e) name = some vals' →
        vals'.Sublist (vals.take (n - 1))) := by
  refine ⟨?_, ?_, ?_⟩
  · intro s e he
    rw [sliceIntoDf_some, sliceIntoDf_none, hrc, if_pos he]
  · intro s e name vals hv
    have hvl : vals.length = n := hlen (name, vals) (alistGet_mem df name vals hv)
    have heff : (if (e : Int) > (n : Int) - 2 then (n : Int) - 2 else (e : Int)) =
        ((min e (n - 2) : ℕ) : Int) := by
      split <;> omega
    have hcol : getCol (sliceIntoDf df (some (s : Int)) (some (e : Int))) name =
        some (pySlice vals (s : Int) (((min e (n - 2) : ℕ) : Int) + 1)) := by
      rw [sliceIntoDf_some, hrc, heff, getCol_map_pySlice, hv]
      rfl
    rw [hcol]
    have ht' : pyIdx vals.length (((min e (n - 2) : ℕ) : Int) + 1) = min e (n - 2) + 1 := by
      rw [pyIdx_of_nonneg_le vals.length _ (by omega) (by omega)]
      omega
    by_cases hs : s ≤ n
    · have hs' : pyIdx vals.length ((s : ℕ) : Int) = s := by
        rw [pyIdx_of_nonneg_le vals.length _ (by omega) (by omega)]
        omega
      unfold pySlice
      rw [ht', hs', List.drop_take]
    · have hsn : pyIdx vals.length ((s : ℕ) : Int) = n := by
        unfold pyIdx
        split <;> omega
      unfold pySlice
      rw [ht', hsn, List.drop_take]
      have h1 : vals.drop n = [] := List.drop_eq_nil_of_le (by omega)
      have h2 : vals.drop s = [] := List.drop_eq_nil_of_le (by omega)
      rw [h1, h2]
      simp
  · intro s e name vals vals' hv hv'
    have hvl : vals.length = n := hlen (name, vals) (alistGet_mem df name vals hv)
    cases e with
    | none =>
        rw [sliceIntoDf_none, hrc, getCol_map_pySlice, hv] at hv'
        have hvals' : vals' = pySlice vals (s.getD 0) (((n : Int) - 2) + 1) :=
          (Option.some.inj hv').symm
        rw [hvals']
        exact pySlice_sublist_take vals n hvl _ _ (by omega)
    | some e0 =>
        rw [sliceIntoDf_some, hrc, getCol_map_pySlice, hv] at hv'
        by_cases he0 : e0 > (n : Int) - 2
        · rw [if_pos he0] at hv'
          have hvals' : vals' = pySlice vals (s.getD 0) (((n : Int) - 2) + 1) :=
            (Option.some.inj hv').symm
          rw [hvals']
          exact pySlice_sublist_take vals n hvl _ _ (by omega)
        · rw [if_neg he0] at hv'
          have hvals' : vals' = pySlice vals (s.getD 0) (e0 + 1) :=
            (Option.some.inj hv').symm
          rw [hvals']
          exact pySlice_sublist_take vals n hvl _ _ (by omega)

/-- Witness for `c10_slice_excludes_final_row` on a three-row table,
requesting the final row explicitly (end index 2 = row_count − 1). -/
theorem c10_slice_excludes_final_row_witness :
    sliceIntoDf [("a", [FVal.fin 1, .fin 2, .fin 3])] none (some 2) =
      sliceIntoDf [("a", [FVal.fin 1, .fin 2, .fin 3])] none none ∧
    getCol (sliceIntoDf [("a", [FVal.fin 1, .fin 2, .fin 3])] (some ((0 : ℕ) : Int))
        (some ((2 : ℕ) : Int))) "a" =
      some (([FVal.fin 1, .fin 2, .fin 3].drop 0).take (min 2 (3 - 2) + 1 - 0)) := by
  obtain ⟨h1, h2, _⟩ := c10_slice_excludes_final_row
    [("a", [FVal.fin 1, .fin 2, .fin 3])] 3 (by decide) (by decide) (by decide)
  exact ⟨h1 none 2 (by decide), h2 0 2 "a" [FVal.fin 1, .fin 2, .fin 3] (by decide)⟩

/-! ## Lap-machine lemmas and C2-C4 -/

theorem lapRun_cons (idx lap : ℕ) (e : FVal) (r : ℚ × FVal) (rows : List (ℚ × FVal)) :
    lapRun idx lap e (r :: rows) =
      lapStep idx lap e r.1 r.2 ::
        lapRun (idx + 1) (lapStep idx lap e r.1 r.2).1 (lapStep idx lap e r.1 r.2).2 rows :=
  rfl

theorem lapStep_fst_bounds (idx lap : ℕ) (e : FVal) (d : ℚ) (t : FVal) :
    lap ≤ (lapStep idx lap e d t).1 ∧ (lapStep idx lap e d t).1 ≤ lap + 1 := by
  unfold lapStep
  split <;> simp

theorem lapStep_zero_idx (lap : ℕ) (e : FVal) (d : ℚ) (t : FVal) :
    lapStep 0 lap e d t = (lap, e.add t) := by
  unfold lapStep
  rw [if_neg]
  rintro ⟨_, h, _⟩
  exact absurd h (by omega)

theorem lapRun_head?_fst (rows : List (ℚ × FVal)) (idx lap : ℕ) (e : FVal)
    (p : ℕ × FVal) (hp : (lapRun idx lap e rows).head? = some p) :
    lap ≤ p.1 ∧ p.1 ≤ lap + 1 := by
  cases rows with
  | nil => simp [lapRun] at hp
  | cons r rs =>
      rw [lapRun_cons] at hp
      simp only [List.head?_cons] at hp
      cases Option.some.inj hp
      exact lapStep_fst_bounds idx lap e r.1 r.2

theorem lapRun_chain (rows : List (ℚ × FVal)) (idx lap : ℕ) (e : FVal) :
    List.Chain' (fun a b : ℕ × FVal => a.1 ≤ b.1 ∧ b.1 ≤ a.1 + 1)
      (lapRun idx lap e rows) := by
  induction rows generalizing idx lap e with
  | nil => simp [lapRun]
  | cons r rs ih =>
      rw [lapRun_cons, List.chain'_cons']
      refine ⟨?_, ih _ _ _⟩
      intro y hy
      exact lapRun_head?_fst rs (idx + 1) _ _ y hy

theorem lapRun_getElem?_zero (rows : List (ℚ × FVal)) (idx lap : ℕ) (e : FVal)
    (p : ℕ × FVal) (r : ℚ × FVal) (hp : (lapRun idx lap e rows)[0]? = some p)
    (hr : rows[0]? = some r) : p = lapStep idx lap e r.1 r.2 := by
  cases rows with
  | nil => simp at hr
  | cons r0 rs =>
      rw [lapRun_cons] at hp
      simp only [List.getElem?_cons_zero] at hp hr
      cases Option.some.inj hp
      cases Option.some.inj hr
      rfl

theorem lapRun_getElem?_succ (rows : List (ℚ × FVal)) (idx lap : ℕ) (e : FVal)
    (j : ℕ) (pj pj1 : ℕ × FVal) (rj1 : ℚ × FVal)
    (hj : (lapRun idx lap e rows)[j]? = some pj)
    (hj1 : (lapRun idx lap e rows)[j + 1]? = some pj1)
    (hr : rows[j + 1]? = some rj1) :
    pj1 = lapStep (idx + (j + 1)) pj.1 pj.2 rj1.1 rj1.2 := by
  induction rows generalizing idx lap e j with
  | nil => simp at hr
  | cons r0 rs ih =>
      cases j with
      | zero =>
          rw [lapRun_cons] at hj hj1
          simp only [List.getElem?_cons_zero, List.getElem?_cons_succ] at hj hj1 hr
          cases Option.some.inj hj
          exact lapRun_getElem?_zero rs (idx + 1) _ _ pj1 rj1 hj1 hr
      | succ j' =>
          rw [lapRun_cons] at hj hj1
          simp only [List.getElem?_cons_succ] at hj hj1 hr
          have := ih (idx + 1) _ _ j' hj hj1 hr
          rw [this]
          congr 1
          omega

/-- C2: on any table the lap detector accepts, the emitted "Lap Number"
column is the cast of the machine's `lap_numbers` list, whose first value
is 1 and which is non-decreasing in row order with every step at most +1
(the counter is only ever incremented by 1, never decremented or reset). -/
theorem c2_lap_number_monotone (dists : List ℚ) (dts : List FVal) (df df' : Df)
    (hdt : getCol df "Delta Time" = some dts)
    (h : findLaps dists df = .ok df') :
    getCol df' "Lap Number" =
      some ((lapNumbers dists dts).map fun k => FVal.fin (k : ℚ)) ∧
    (∀ h0 : 0 < (lapNumbers dists dts).length,
        (lapNumbers dists dts).get ⟨0, h0⟩ = 1) ∧
    (∀ (i j : ℕ) (hi : i < (lapNumbers dists dts).length)
        (hj : j < (lapNumbers dists dts).length), i ≤ j →
        (lapNumbers dists dts).get ⟨i, hi⟩ ≤ (lapNumbers dists dts).get ⟨j, hj⟩) ∧
    List.Chain' (fun a b => b ≤ a + 1) (lapNumbers dists dts) := by
  have hguard : hasCol df "Lap Number" = false := by
    cases hg : hasCol df "Lap Number" with
    | false => rfl
    | true => rw [findLaps, if_pos hg] at h; cases h
  have hdf' : df' = dfSet (dfSet df "Lap Number"
      ((lapNumbers dists dts).map fun k => FVal.fin (k : ℚ)))
      "Current Lap Time" (lapTimes dists dts) := by
    rw [findLaps, if_neg (by rw [hguard]; exact Bool.false_ne_true)] at h
    rw [hdt] at h
    exact (Except.ok.inj h).symm
  subst hdf'
  refine ⟨?_, ?_, ?_, ?_⟩
  · rw [getCol_dfSet_ne _ _ _ _ (by decide), getCol_dfSet_self]
  · intro h0
    cases hrows : dists.zip dts with
    | nil =>
        exfalso
        have hempty : lapNumbers dists dts = [] := by
          rw [lapNumbers, hrows]
          rfl
        rw [hempty] at h0
        exact absurd h0 (by simp)
    | cons r rs =>
        have hform : lapNumbers dists dts =
            (lapStep 0 1 (.fin 0) r.1 r.2).1 ::
              (lapRun 1 (lapStep 0 1 (.fin 0) r.1 r.2).1
                (lapStep 0 1 (.fin 0) r.1 r.2).2 rs).map Prod.fst := by
          rw [lapNumbers, hrows, lapRun_cons]
          rfl
        have hlap1 : (lapStep 0 1 (.fin 0) r.1 r.2).1 = 1 := by
          rw [lapStep_zero_idx]
        have hsome : (lapNumbers dists dts)[0]? = some 1 := by
          rw [hform]
          simp [hlap1]
        obtain ⟨hlt, hval⟩ := List.getElem?_eq_some_iff.mp hsome
        simp only [List.get_eq_getElem]
        exact hval
  · have hchain : List.Chain' (fun a b : ℕ => a ≤ b) (lapNumbers dists dts) := by
      rw [lapNumbers, List.chain'_map]
      exact (lapRun_chain (dists.zip dts) 0 1 (.fin 0)).imp fun a b hab => hab.1
    have hpw : List.Pairwise (fun a b : ℕ => a ≤ b) (lapNumbers dists dts) :=
      List.chain'_iff_pairwise.mp hchain
    intro i j hi hj hij
    rcases Nat.lt_or_ge i j with hlt | hge
    · have := List.pairwise_iff_getElem.mp hpw i j hi hj hlt
      simpa using this
    · have hijeq : i = j := by omega
      subst hijeq
      exact le_refl _
  · rw [lapNumbers, List.chain'_map]
    exact (lapRun_chain (dists.zip dts) 0 1 (.fin 0)).imp fun a b hab => hab.2

/-- Witness for `c2_lap_number_monotone` on a one-row table. -/
theorem c2_lap_number_monotone_witness :
    getCol [("Delta Time", [FVal.fin 1]), ("Lap Number", [FVal.fin 1]),
        ("Current Lap Time", [FVal.fin 1])] "Lap Number" =
      some ((lapNumbers [0.06] [FVal.fin 1]).map fun k => FVal.fin (k : ℚ)) ∧
    (∀ h0 : 0 < (lapNumbers [0.06] [FVal.fin 1]).length,
        (lapNumbers [0.06] [FVal.fin 1]).get ⟨0, h0⟩ = 1) ∧
    (∀ (i j : ℕ) (hi : i < (lapNumbers [0.06] [FVal.fin 1]).length)
        (hj : j < (lapNumbers [0.06] [FVal.fin 1]).length), i ≤ j →
        (lapNumbers [0.06] [FVal.fin 1]).get ⟨i, hi⟩ ≤
          (lapNumbers [0.06] [FVal.fin 1]).get ⟨j, hj⟩) ∧
    List.Chain' (fun a b => b ≤ a + 1) (lapNumbers [0.06] [FVal.fin 1]) := by
  refine c2_lap_number_monotone [0.06] [FVal.fin 1]
    [("Delta Time", [FVal.fin 1])] _ (by decide) ?_
  simp [findLaps, hasCol, getCol, alistGet, dfSet, alistSet, lapNumbers, lapTimes,
    lapRun_cons, lapStep_zero_idx, FVal.add, lapRun]

/-- C3: in the lap-counting state machine, a row can trigger a new lap
(increment the emitted lap number) exactly when its distance to the start
centroid is at most 0.05 km and either the accumulated "Current Lap Time"
emitted at the previous row — the elapsed time accumulated through that
row — is at least 10 seconds or the current lap is 1; consequently, at any
boundary event occurring when the current lap is already ≥ 2 (i.e. after
the lap 1 → 2 transition), at least 10 seconds of accumulated lap time
separate it from the previous boundary event. -/
theorem c3_debounce (rows : List (ℚ × FVal)) (j : ℕ) (pj pj1 : ℕ × FVal)
    (rj1 : ℚ × FVal)
    (hj : (lapRun 0 1 (.fin 0) rows)[j]? = some pj)
    (hj1 : (lapRun 0 1 (.fin 0) rows)[j + 1]? = some pj1)
    (hr : rows[j + 1]? = some rj1) :
    (pj1.1 = pj.1 + 1 ↔
      (rj1.1 ≤ 0.05 ∧ (FVal.le (.fin 10) pj.2 = true ∨ pj.1 = 1))) ∧
    (pj1.1 = pj.1 + 1 → 2 ≤ pj.1 → FVal.le (.fin 10) pj.2 = true) := by
  have hstep : pj1 = lapStep (0 + (j + 1)) pj.1 pj.2 rj1.1 rj1.2 :=
    lapRun_getElem?_succ rows 0 1 (.fin 0) j pj pj1 rj1 hj hj1 hr
  rw [hstep]
  unfold lapStep
  by_cases hcond : rj1.1 ≤ 0.05 ∧ 0 < 0 + (j + 1) ∧
      (FVal.le (.fin 10) pj.2 = true ∨ pj.1 = 1)
  · rw [if_pos hcond]
    constructor
    · constructor
      · intro _
        exact ⟨hcond.1, hcond.2.2⟩
      · intro _
        rfl
    · intro _ h2
      rcases hcond.2.2 with h10 | h1
      · exact h10
      · omega
  · rw [if_neg hcond]
    have hne : ¬(pj.1 = pj.1 + 1) := by omega
    constructor
    · constructor
      · intro hinc
        exact absurd hinc hne
      · intro hrhs
        exact absurd ⟨hrhs.1, by omega, hrhs.2⟩ hcond
    · intro hinc
      exact absurd hinc hne

/-- Witness for `c3_debounce`: two rows, the second at the start line with
an infinite accumulated lap time, triggering lap 2. -/
theorem c3_debounce_witness :
    (((2 : ℕ), FVal.fin 0).1 = ((1 : ℕ), FVal.pinf).1 + 1 ↔
      (((0 : ℚ), FVal.fin 1).1 ≤ 0.05 ∧
        (FVal.le (.fin 10) ((1 : ℕ), FVal.pinf).2 = true ∨ ((1 : ℕ), FVal.pinf).1 = 1))) ∧
    (((2 : ℕ), FVal.fin 0).1 = ((1 : ℕ), FVal.pinf).1 + 1 →
      2 ≤ ((1 : ℕ), FVal.pinf).1 →
      FVal.le (.fin 10) ((1 : ℕ), FVal.pinf).2 = true) := by
  refine c3_debounce [(1, FVal.pinf), (0, FVal.fin 1)] 0 (1, FVal.pinf) (2, FVal.fin 0)
    (0, FVal.fin 1) ?_ ?_ (by simp)
  · simp [lapRun_cons, lapStep_zero_idx, FVal.add]
  · simp only [lapRun_cons, lapStep_zero_idx, FVal.add]
    norm_num [lapRun_cons, lapRun, lapStep, FVal.le]

/-! ## C4: the documented ten-row scenario -/

/-- C4: on the documented ten-row scenario the lap detector emits
Lap Number = [1,1,1,1,1,1,1,1,1,2] and Current Lap Time
[1,…,9, 0] — resetting to exactly 0 at the boundary row; the boundary test
at the last row uses the elapsed time accumulated through the previous row
(9 s, which fails the 10-second test, so the trigger is the lap-1
exemption) and the row's Delta Time is added only after the test. -/
theorem c4_documented_scenario :
    findLaps c4dists c4df = .ok
      [("Delta Time", [FVal.fin 1, .fin 1, .fin 1, .fin 1, .fin 1,
                       .fin 1, .fin 1, .fin 1, .fin 1, .fin 1]),
       ("Lap Number", [FVal.fin 1, .fin 1, .fin 1, .fin 1, .fin 1,
                       .fin 1, .fin 1, .fin 1, .fin 1, .fin 2]),
       ("Current Lap Time", [FVal.fin 1, .fin 2, .fin 3, .fin 4, .fin 5,
                             .fin 6, .fin 7, .fin 8, .fin 9, .fin 0])] ∧
    lapStep 9 1 (.fin 9) 0 (.fin 1) = (2, .fin 0) ∧
    FVal.le (.fin 10) (.fin 9) = false := by
  refine ⟨?_, ?_, ?_⟩
  · show findLaps c4dists c4df = _
    norm_num [findLaps, hasCol, getCol, alistGet, dfSet, alistSet, c4df, c4dists,
      lapNumbers, lapTimes, lapRun_cons, lapRun, lapStep, FVal.le, FVal.add]
    simp
  · norm_num [lapStep, FVal.le]
  · norm_num [FVal.le]
